import Mathlib

/-!
Verification of the parallel/federated training coordinator.

Shallow embedding of the coordination layer:
* `MASCNN_5/MASModelCNN.py` — `ParallelizationModel` (data sharding,
  weight synchronization, per-step metrics aggregation);
* `MASDL-HP/mainMASCNN.py` — `train_simulated` (configuration-selector
  resolution, training loop, early stopping, slowest-epoch timing);
* `EXTENDED_REAL_PAR8020/main_p8020_EXT.py` — `main` (fold-count dispatch,
  best-fold selection, aggregate reporting).

Tensors are modelled pointwise: a parameter tensor entry is one rational,
a state dict maps a parameter-tensor name to its (representative) entry.
Floating point is modelled by `ℚ`.
-/

namespace ParTries

/-- A model parameter snapshot: one rational value per parameter-tensor name
(`model.state_dict()` in the source, with each tensor modelled pointwise). -/
abbrev StateDict : Type := String → ℚ

/-- `MASModelCNN.py` lines 93-104: the averaged global weight at tensor name
`k`.  The sum ranges over the agents whose `neural_net_model` is not `None`
(line 98), but the divisor is `num_agents = len(self.schedule.agents)`
(lines 94 and 104), i.e. the TOTAL number of scheduled agents. -/
def globalWeight (agents : List (Option StateDict)) (k : String) : ℚ :=
  (((agents.filterMap id).map (fun sd => sd k)).sum) / (agents.length : ℚ)

/-- The averaging prescribed by the spec (§4.5): same sum, but the divisor is
the number of agents that hold a usable local model instance. -/
def specGlobalWeight (agents : List (Option StateDict)) (k : String) : ℚ :=
  (((agents.filterMap id).map (fun sd => sd k)).sum) / ((agents.filterMap id).length : ℚ)

/-- `ParallelizationModel.synchronize_weights` (`MASModelCNN.py` lines 84-109).
Each agent is its (optional) model state; `none` models
`agent.neural_net_model is None`.  If no seed state dict is provided the
method returns at once (lines 90-91); otherwise the averaged global weights
are loaded into every agent that holds a model (lines 93-109). -/
def synchronize_weights (model_state_dict : Option StateDict)
    (agents : List (Option StateDict)) : List (Option StateDict) :=
  match model_state_dict with
  | none => agents
  | some _ => agents.map (Option.map (fun _ => globalWeight agents))

/-- Sizes of the `n` parts `numpy.array_split` produces for a length-`l`
array: the first `l % n` parts get `l / n + 1` elements, the rest `l / n`. -/
def arraySplitSizes (l n : ℕ) : List ℕ :=
  (List.range n).map (fun i => l / n + if i < l % n then 1 else 0)

/-- Cut a list into consecutive pieces of the given sizes. -/
def splitBySizes {α : Type} : List α → List ℕ → List (List α)
  | _, [] => []
  | xs, k :: ks => xs.take k :: splitBySizes (xs.drop k) ks

/-- `numpy.array_split(xs, n)` (used at `MASModelCNN.py` lines 38-39):
`n` consecutive, order-preserving pieces whose sizes differ by at most 1. -/
def arraySplit {α : Type} (xs : List α) (n : ℕ) : List (List α) :=
  splitBySizes xs (arraySplitSizes xs.length n)

/-- Data assignment of `ParallelizationModel._split_data_and_create_agents`
(`MASModelCNN.py` lines 26-53): one processor keeps the whole training set
(lines 31-35), otherwise the set is split with `numpy.array_split`
(lines 36-53). -/
def split_data {α : Type} (num_processors : ℕ) (xs : List α) : List (List α) :=
  if num_processors = 1 then [xs] else arraySplit xs num_processors

/-- Weight effect of `ParallelizationModel.step` (`MASModelCNN.py`
lines 55-60 and 82) followed by `report_testing_accuracy`'s final
synchronization (line 116).  The per-step call at line 60 passes no state
dict, so its seed is `none`; the reporting-time call is seeded from agent 0's
model state (the source assumes agent 0 holds a model instance). -/
def step_weights (num_processors : ℕ) (agents : List (Option StateDict)) :
    List (Option StateDict) :=
  let afterRound := if 1 < num_processors then synchronize_weights none agents else agents
  match afterRound.head? with
  | some (some sd0) => synchronize_weights (some sd0) afterRound
  | _ => afterRound

/-- Possible top-level actions of `main` in
`EXTENDED_REAL_PAR8020/main_p8020_EXT.py`.  `configError` is the outcome the
spec prescribes for a fold count below 2; the source never produces it (no
`ConfigurationError` exists anywhere in the repository). -/
inductive MainAction : Type
  | trainFull
  | crossValidate
  | configError
deriving DecidableEq

/-- Dispatch of `main` (`main_p8020_EXT.py` lines 77-121): a fold count below
2 trains once on the entire training set, otherwise parallel k-fold
cross-validation runs. -/
def mainDispatch (folds : ℤ) : MainAction :=
  if folds < 2 then .trainFull else .crossValidate

/-- The divisor bug at a concrete input: two scheduled agents, agent 0 with a
single-tensor state of value 2, agent 1 with no model.  The code sums only
the usable agent's value but divides by the total agent count 2, broadcasting
1; the spec's divisor (usable agents = 1) gives 2. -/
theorem c1_divisor_mismatch :
    globalWeight [some (fun _ => (2 : ℚ)), none] "w" = 1 ∧
    specGlobalWeight [some (fun _ => (2 : ℚ)), none] "w" = 2 ∧
    (synchronize_weights (some (fun _ => (0 : ℚ)))
        [some (fun _ => (2 : ℚ)), none]).map (Option.map (fun sd => sd "w"))
      = [some 1, none] := by
  refine ⟨?_, ?_, ?_⟩ <;>
    simp [globalWeight, specGlobalWeight, synchronize_weights]

/-- C4 counterexample: at fold count 1 the program trains on the full
training set; it does not fail with `ConfigurationError`. -/
theorem c4_folds_one_trains_full :
    mainDispatch 1 = MainAction.trainFull ∧
    MainAction.trainFull ≠ MainAction.configError := by
  constructor
  · rfl
  · intro h
    exact MainAction.noConfusion h

/-- C4 amended: whenever the fold count is below 2, `main` raises no error at
all — it skips cross-validation and trains a single model on the entire
training set. -/
theorem c4_low_folds_no_error (folds : ℤ) (h : folds < 2) :
    mainDispatch folds = MainAction.trainFull ∧
    mainDispatch folds ≠ MainAction.configError := by
  have hd : mainDispatch folds = MainAction.trainFull := by
    unfold mainDispatch
    simp [h]
  refine ⟨hd, ?_⟩
  rw [hd]
  intro hc
  exact MainAction.noConfusion hc

/-- Witness for `c4_low_folds_no_error` at fold count 1. -/
theorem c4_low_folds_no_error_witness :
    mainDispatch 1 = MainAction.trainFull ∧
    mainDispatch 1 ≠ MainAction.configError :=
  c4_low_folds_no_error 1 (by norm_num)

/-! ### Early stopping (`MASDL-HP/mainMASCNN.py`, `train_simulated`) -/

/-- Early-stopping state of one worker (`mainMASCNN.py` lines 112-114):
`best` is `best_val_loss` with `none` standing for the initial
`float('inf')`; `counter` is `epochs_without_improvement`. -/
structure ESState : Type where
  best : Option ℚ
  counter : ℕ
deriving DecidableEq

/-- Initial early-stopping state (lines 112-114): best loss `+∞`, counter 0. -/
def esInit : ESState := { best := none, counter := 0 }

/-- The test `val_loss < best_val_loss` of line 157; any finite loss beats
the initial `+∞`. -/
def improves (v : ℚ) (b : Option ℚ) : Bool :=
  match b with
  | none => true
  | some b0 => decide (v < b0)

/-- One validation-loss update (lines 157-161): on improvement record the new
best and reset the counter, otherwise increment the counter. -/
def esStep (s : ESState) (v : ℚ) : ESState :=
  if improves v s.best then { best := some v, counter := 0 }
  else { best := s.best, counter := s.counter + 1 }

/-- The epoch loop of `train_simulated` restricted to its early-stopping
effect (lines 121-165): process the validation losses in order, and after
each update stop as soon as `epochs_without_improvement >= patience`
(lines 163-165).  Returns the number of epochs run and the final state; the
loss list is the sequence of per-epoch validation losses, so its length is
the configured epoch maximum. -/
def esRun (patience : ℕ) : ESState → List ℚ → ℕ × ESState
  | s, [] => (0, s)
  | s, v :: vs =>
    let s2 := esStep s v
    if patience ≤ s2.counter then (1, s2)
    else
      let r := esRun patience s2 vs
      (r.1 + 1, r.2)

theorem esRun_le_length (patience : ℕ) :
    ∀ (vs : List ℚ) (s : ESState), (esRun patience s vs).1 ≤ vs.length := by
  intro vs
  induction vs with
  | nil => intro s; simp [esRun]
  | cons v vs ih =>
    intro s
    simp only [esRun, List.length_cons]
    split
    · omega
    · have := ih (esStep s v)
      omega

theorem esRun_final_state (patience : ℕ) :
    ∀ (vs : List ℚ) (s : ESState),
      (esRun patience s vs).2 = ((vs.take (esRun patience s vs).1).foldl esStep s) := by
  intro vs
  induction vs with
  | nil => intro s; simp [esRun]
  | cons v vs ih =>
    intro s
    simp only [esRun]
    split
    · simp [List.take_succ_cons, List.foldl_cons]
    · simpa [List.take_succ_cons, List.foldl_cons] using ih (esStep s v)

theorem esRun_checks_below (patience : ℕ) :
    ∀ (vs : List ℚ) (s : ESState) (k : ℕ), k + 1 < (esRun patience s vs).1 →
      ((vs.take (k + 1)).foldl esStep s).counter < patience := by
  intro vs
  induction vs with
  | nil => intro s k hk; simp [esRun] at hk
  | cons v vs ih =>
    intro s k hk
    simp only [esRun] at hk
    by_cases hstop : patience ≤ (esStep s v).counter
    · simp [hstop] at hk
    · simp only [hstop, if_false] at hk
      cases k with
      | zero =>
        simpa [List.take_succ_cons, List.foldl_cons] using Nat.lt_of_not_le hstop
      | succ k' =>
        have hk' : k' + 1 < (esRun patience (esStep s v) vs).1 := by omega
        simpa [List.take_succ_cons, List.foldl_cons] using ih (esStep s v) k' hk'

theorem esRun_stop_counter (patience : ℕ) (hp : 1 ≤ patience) :
    ∀ (vs : List ℚ) (s : ESState), s.counter < patience →
      (esRun patience s vs).1 < vs.length →
      ((vs.take (esRun patience s vs).1).foldl esStep s).counter = patience := by
  intro vs
  induction vs with
  | nil => intro s _ h; simp [esRun] at h
  | cons v vs ih =>
    intro s hs hlen
    simp only [esRun] at hlen ⊢
    by_cases hstop : patience ≤ (esStep s v).counter
    · simp only [hstop, if_true]
      have hcnt : (esStep s v).counter = patience := by
        unfold esStep at hstop ⊢
        by_cases himp : improves v s.best = true
        · simp [himp] at hstop ⊢
          omega
        · simp [himp] at hstop ⊢
          omega
      simpa [List.take_succ_cons, List.foldl_cons] using hcnt
    · simp only [hstop, if_false] at hlen ⊢
      have hs2 : (esStep s v).counter < patience := Nat.lt_of_not_le hstop
      have hlen' : (esRun patience (esStep s v) vs).1 < vs.length := by
        simp only [List.length_cons] at hlen; omega
      simpa [List.take_succ_cons, List.foldl_cons] using ih (esStep s v) hs2 hlen'

theorem esRun_no_trigger_runs_all (patience : ℕ) :
    ∀ (vs : List ℚ) (s : ESState),
      (∀ k, k < vs.length → ((vs.take (k + 1)).foldl esStep s).counter < patience) →
      (esRun patience s vs).1 = vs.length := by
  intro vs
  induction vs with
  | nil => intro s _; simp [esRun]
  | cons v vs ih =>
    intro s hall
    have h0 : (esStep s v).counter < patience := by
      simpa [List.take_succ_cons, List.foldl_cons] using hall 0 (by simp)
    simp only [esRun, Nat.not_le_of_lt h0, if_false, List.length_cons]
    have : (esRun patience (esStep s v) vs).1 = vs.length := by
      apply ih
      intro k hk
      simpa [List.take_succ_cons, List.foldl_cons] using
        hall (k + 1) (by simpa using Nat.succ_lt_succ hk)
    omega

/-- C2: the early-stopping machine starts at best = `+∞` (`none`), counter 0;
each validation loss below the best updates the best and resets the counter,
any other loss increments the counter; and the epoch loop exits without
further epochs exactly when the counter reaches the configured patience,
never later (if no prefix of the losses drives the counter to patience, every
configured epoch runs). -/
theorem c2_early_stopping (patience : ℕ) (losses : List ℚ) :
    (esInit.best = none ∧ esInit.counter = 0) ∧
    (∀ (s : ESState) (v : ℚ),
      (improves v s.best = true → esStep s v = { best := some v, counter := 0 }) ∧
      (improves v s.best = false →
        esStep s v = { best := s.best, counter := s.counter + 1 })) ∧
    (esRun patience esInit losses).1 ≤ losses.length ∧
    (∀ k, k + 1 < (esRun patience esInit losses).1 →
      ((losses.take (k + 1)).foldl esStep esInit).counter < patience) ∧
    ((esRun patience esInit losses).1 < losses.length →
      ((losses.take (esRun patience esInit losses).1).foldl esStep esInit).counter
        = patience) ∧
    ((∀ k, k < losses.length →
        ((losses.take (k + 1)).foldl esStep esInit).counter < patience) →
      (esRun patience esInit losses).1 = losses.length) ∧
    (esRun patience esInit losses).2
      = (losses.take (esRun patience esInit losses).1).foldl esStep esInit := by
  refine ⟨⟨rfl, rfl⟩, ?_, esRun_le_length patience losses esInit,
    esRun_checks_below patience losses esInit, ?_,
    esRun_no_trigger_runs_all patience losses esInit,
    esRun_final_state patience losses esInit⟩
  · intro s v
    constructor <;> intro h <;> simp [esStep, h]
  · intro hlen
    by_cases hp : patience = 0
    · subst hp
      cases losses with
      | nil => simp [esRun] at hlen
      | cons v vs => simp [esRun, esStep, esInit, improves]
    · exact esRun_stop_counter patience (Nat.one_le_iff_ne_zero.mpr hp) losses esInit
        (Nat.pos_of_ne_zero hp) hlen

/-- Witness for `c2_early_stopping`: patience 2 on losses `[1, 2, 3, 4]` —
the run stops early (3 epochs out of 4), and at the stopping epoch the
counter equals the patience. -/
theorem c2_early_stopping_witness :
    ((([1, 2, 3, 4] : List ℚ).take (esRun 2 esInit [1, 2, 3, 4]).1).foldl
      esStep esInit).counter = 2 :=
  (c2_early_stopping 2 [1, 2, 3, 4]).2.2.2.2.1 (by decide)

/-! ### Python `max` / `list.index` and the fold selector -/

/-- Python's built-in `max` over a list.  On `[]` Python raises
`ValueError`; the sources only apply it to non-empty lists, and every
theorem below assumes non-emptiness. -/
def pyMax : List ℚ → ℚ
  | [] => 0
  | v :: vs => vs.foldl max v

theorem foldl_max_mem : ∀ (vs : List ℚ) (v : ℚ), vs.foldl max v ∈ v :: vs := by
  intro vs
  induction vs with
  | nil => intro v; simp
  | cons w ws ih =>
    intro v
    have h := ih (max v w)
    rcases max_choice v w with hm | hm <;>
      simp only [List.foldl_cons] <;> rw [hm] at h ⊢ <;> simp at h ⊢ <;> tauto

theorem le_foldl_max_init : ∀ (vs : List ℚ) (v : ℚ), v ≤ vs.foldl max v := by
  intro vs
  induction vs with
  | nil => intro v; simp
  | cons w ws ih =>
    intro v
    calc v ≤ max v w := le_max_left v w
    _ ≤ ws.foldl max (max v w) := ih (max v w)

theorem le_foldl_max_of_mem :
    ∀ (vs : List ℚ) (v a : ℚ), a ∈ vs → a ≤ vs.foldl max v := by
  intro vs
  induction vs with
  | nil => intro v a ha; simp at ha
  | cons w ws ih =>
    intro v a ha
    rcases List.mem_cons.mp ha with rfl | ha
    · calc a ≤ max v a := le_max_right v a
      _ ≤ ws.foldl max (max v a) := le_foldl_max_init ws (max v a)
    · exact ih (max v w) a ha

theorem pyMax_mem (l : List ℚ) (h : l ≠ []) : pyMax l ∈ l := by
  cases l with
  | nil => exact absurd rfl h
  | cons v vs => exact foldl_max_mem vs v

theorem le_pyMax (l : List ℚ) (a : ℚ) (ha : a ∈ l) : a ≤ pyMax l := by
  cases l with
  | nil => simp at ha
  | cons v vs =>
    rcases List.mem_cons.mp ha with rfl | ha
    · exact le_foldl_max_init vs a
    · exact le_foldl_max_of_mem vs v a ha

/-- Python's `list.index` returns the first occurrence: every earlier
position holds a different element. -/
theorem get_ne_of_lt_indexOf {α : Type} [DecidableEq α] :
    ∀ (l : List α) (a : α) (j : ℕ) (hj : j < l.length),
      j < l.indexOf a → l.get ⟨j, hj⟩ ≠ a := by
  intro l
  induction l with
  | nil => intro a j hj; simp at hj
  | cons b l ih =>
    intro a j hj hlt
    by_cases hba : b = a
    · rw [List.indexOf_cons_eq l hba] at hlt
      omega
    · rw [List.indexOf_cons_ne l hba] at hlt
      cases j with
      | zero => simpa using hba
      | succ j' =>
        have hj' : j' < l.length := by simpa using hj
        simpa using ih a j' hj' (by omega)

/-- One fold's result as collected by `main` in `main_p8020_EXT.py`
(line 49-53): the tuple `(loss, accuracy, model)` returned by `train`; the
trained model is an opaque handle. -/
structure FoldResult : Type where
  loss : ℚ
  acc : ℚ
  model : ℕ
deriving DecidableEq

/-- `main_p8020_EXT.py` line 125:
`best_model_idx = accuracies.index(max(accuracies))` with
`accuracies = [result[1] for result in results]` (line 124). -/
def bestModelIdx (results : List FoldResult) : ℕ :=
  (results.map (fun r => r.acc)).indexOf (pyMax (results.map (fun r => r.acc)))

/-- `main_p8020_EXT.py` lines 126-128: `best_model = results[best_model_idx][2]`
is the model handed to `test_model` for held-out evaluation. -/
def testedModel (results : List FoldResult) : Option ℕ :=
  (results.get? (bestModelIdx results)).map (fun r => r.model)

/-- C3: on a non-empty result list the selector picks a result of maximum
validation accuracy; any tie is broken in favour of the lowest fold index
(every strictly earlier result has strictly smaller accuracy); and the
selected result's model is the one passed to the held-out test
evaluation. -/
theorem c3_selector (results : List FoldResult) (h : results ≠ []) :
    bestModelIdx results < results.length ∧
    (results.get? (bestModelIdx results)).map (fun r => r.acc)
      = some (pyMax (results.map (fun r => r.acc))) ∧
    (∀ (j : ℕ) (hj : j < results.length),
      (results.get ⟨j, hj⟩).acc ≤ pyMax (results.map (fun r => r.acc))) ∧
    (∀ (j : ℕ) (hj : j < results.length), j < bestModelIdx results →
      (results.get ⟨j, hj⟩).acc < pyMax (results.map (fun r => r.acc))) ∧
    testedModel results = (results.get? (bestModelIdx results)).map (fun r => r.model) := by
  have haccs : results.map (fun r => r.acc) ≠ [] := by
    simpa using h
  have hmem : pyMax (results.map (fun r => r.acc)) ∈ results.map (fun r => r.acc) :=
    pyMax_mem _ haccs
  have hidx : bestModelIdx results < (results.map (fun r => r.acc)).length :=
    List.indexOf_lt_length.mpr hmem
  have hlen : (results.map (fun r => r.acc)).length = results.length :=
    List.length_map _ _
  have hidx' : bestModelIdx results < results.length := hlen ▸ hidx
  refine ⟨hidx', ?_, ?_, ?_, rfl⟩
  · rw [show (results.get? (bestModelIdx results)).map (fun r => r.acc)
        = (results.map (fun r => r.acc)).get? (bestModelIdx results) from
      (List.get?_map _ _ _).symm]
    rw [List.get?_eq_get hidx]
    exact congrArg some (List.indexOf_get hidx)
  · intro j hj
    apply le_pyMax
    have : (results.get ⟨j, hj⟩).acc
        = (results.map (fun r => r.acc)).get ⟨j, hlen ▸ hj⟩ := by
      simp
    rw [this]
    exact List.get_mem _ _ _
  · intro j hj hjlt
    have hne : (results.map (fun r => r.acc)).get ⟨j, hlen ▸ hj⟩
        ≠ pyMax (results.map (fun r => r.acc)) :=
      get_ne_of_lt_indexOf _ _ j (hlen ▸ hj) hjlt
    have hle : (results.map (fun r => r.acc)).get ⟨j, hlen ▸ hj⟩
        ≤ pyMax (results.map (fun r => r.acc)) :=
      le_pyMax _ _ (List.get_mem _ _ _)
    have : (results.get ⟨j, hj⟩).acc
        = (results.map (fun r => r.acc)).get ⟨j, hlen ▸ hj⟩ := by
      simp
    rw [this]
    exact lt_of_le_of_ne hle hne

/-- Witness for `c3_selector`: two folds tied at accuracy 9 — the selector
stays within bounds and hands fold 0's model (handle 100) to testing. -/
theorem c3_selector_witness :
    bestModelIdx [⟨1, 9, 100⟩, ⟨2, 9, 200⟩] < 2 ∧
    testedModel [⟨1, 9, 100⟩, ⟨2, 9, 200⟩] = some 100 := by
  have h := c3_selector [⟨1, 9, 100⟩, ⟨2, 9, 200⟩] (by simp)
  refine ⟨h.1, ?_⟩
  rw [h.2.2.2.2]
  decide

/-- `mainMASCNN.py` line 167: `slowest_processing_time = max(processing_times)`
— the per-worker reported time is the slowest single-epoch duration. -/
def slowest_processing_time (processing_times : List ℚ) : ℚ :=
  pyMax processing_times

/-- C8: the processing time a worker reports is the maximum of its per-epoch
durations — it occurs among them and dominates each of them — and it is not
the mean of the durations (at durations `[1, 3]` the reported value differs
from the mean 2). -/
theorem c8_slowest_epoch (times : List ℚ) (h : times ≠ []) :
    slowest_processing_time times ∈ times ∧
    (∀ t ∈ times, t ≤ slowest_processing_time times) ∧
    slowest_processing_time [1, 3] ≠ (1 + 3) / 2 := by
  refine ⟨pyMax_mem times h, fun t ht => le_pyMax times t ht, ?_⟩
  norm_num [slowest_processing_time, pyMax]

/-- Witness for `c8_slowest_epoch` at durations `[1, 3]`. -/
theorem c8_slowest_epoch_witness :
    slowest_processing_time [1, 3] ∈ ([1, 3] : List ℚ) :=
  (c8_slowest_epoch [1, 3] (by simp)).1

/-! ### Shard partitioning (`numpy.array_split`) -/

theorem sum_range_map_add_ite (n r c : ℕ) :
    ((List.range n).map (fun i => c + if i < r then 1 else 0)).sum
      = n * c + min r n := by
  induction n with
  | zero => simp
  | succ n ih =>
    rw [List.range_succ, List.map_append, List.sum_append, ih, Nat.succ_mul]
    simp only [List.map_cons, List.map_nil, List.sum_cons, List.sum_nil]
    rcases Nat.lt_or_ge n r with h | h
    · rw [if_pos h, Nat.min_eq_right (Nat.le_of_lt h), Nat.min_eq_right h]
      omega
    · rw [if_neg (Nat.not_lt.mpr h), Nat.min_eq_left h,
        Nat.min_eq_left (Nat.le_succ_of_le h)]
      omega

theorem arraySplitSizes_sum (l n : ℕ) (hn : 0 < n) :
    (arraySplitSizes l n).sum = l := by
  unfold arraySplitSizes
  rw [sum_range_map_add_ite]
  have hmod : l % n < n := Nat.mod_lt l hn
  have hdm : n * (l / n) + l % n = l := Nat.div_add_mod l n
  omega

theorem splitBySizes_length {α : Type} :
    ∀ (ks : List ℕ) (xs : List α), (splitBySizes xs ks).length = ks.length := by
  intro ks
  induction ks with
  | nil => intro xs; simp [splitBySizes]
  | cons k ks ih => intro xs; simp [splitBySizes, ih]

theorem splitBySizes_flatten {α : Type} :
    ∀ (ks : List ℕ) (xs : List α),
      (splitBySizes xs ks).flatten = xs.take ks.sum := by
  intro ks
  induction ks with
  | nil => intro xs; simp [splitBySizes]
  | cons k ks ih =>
    intro xs
    rw [List.sum_cons, List.take_add]
    simp [splitBySizes, ih]

theorem splitBySizes_lengths {α : Type} :
    ∀ (ks : List ℕ) (xs : List α), ks.sum ≤ xs.length →
      (splitBySizes xs ks).map List.length = ks := by
  intro ks
  induction ks with
  | nil => intro xs _; simp [splitBySizes]
  | cons k ks ih =>
    intro xs hsum
    rw [List.sum_cons] at hsum
    have hk : k ≤ xs.length := by omega
    have hrest : ks.sum ≤ (xs.drop k).length := by
      rw [List.length_drop]; omega
    simp [splitBySizes, List.length_take, Nat.min_eq_left hk, ih (xs.drop k) hrest]

theorem arraySplitSizes_mem (l n s : ℕ) (hs : s ∈ arraySplitSizes l n) :
    s = l / n ∨ s = l / n + 1 := by
  unfold arraySplitSizes at hs
  rcases List.mem_map.mp hs with ⟨i, _, rfl⟩
  by_cases h : i < l % n <;> simp [h]

/-- C7: for every index-set size `m` and every shard count `p ≥ 1`, the
sharding of `ParallelizationModel._split_data_and_create_agents` produces
exactly `p` groups which, concatenated in order, give back the full training
index sequence (so the groups are contiguous, ordered slices covering
everything), are pairwise disjoint, and have sizes `m / p` or `m / p + 1`
(differing by at most one). -/
theorem c7_shard_partition (m p : ℕ) (hp : 1 ≤ p) :
    (split_data p (List.range m)).length = p ∧
    (split_data p (List.range m)).flatten = List.range m ∧
    List.Pairwise List.Disjoint (split_data p (List.range m)) ∧
    (∀ part ∈ split_data p (List.range m),
      part.length = m / p ∨ part.length = m / p + 1) := by
  by_cases hp1 : p = 1
  · subst hp1
    refine ⟨rfl, by simp [split_data], by simp [split_data], ?_⟩
    intro part hpart
    simp [split_data] at hpart
    subst hpart
    simp
  · have hppos : 0 < p := hp
    have hxs : (List.range m).length = m := List.length_range m
    have hsum : (arraySplitSizes (List.range m).length p).sum = m := by
      rw [hxs]; exact arraySplitSizes_sum m p hppos
    have hsplit : split_data p (List.range m) = arraySplit (List.range m) p := by
      simp [split_data, hp1]
    have hflat : (split_data p (List.range m)).flatten = List.range m := by
      rw [hsplit]
      unfold arraySplit
      rw [splitBySizes_flatten, hsum]
      exact List.take_of_length_le (le_of_eq hxs)
    refine ⟨?_, hflat, ?_, ?_⟩
    · rw [hsplit]
      unfold arraySplit
      rw [splitBySizes_length]
      simp [arraySplitSizes]
    · have hnd : (split_data p (List.range m)).flatten.Nodup := by
        rw [hflat]; exact List.nodup_range m
      exact (List.nodup_flatten.mp hnd).2
    · intro part hpart
      have hlen : (split_data p (List.range m)).map List.length
          = arraySplitSizes (List.range m).length p := by
        rw [hsplit]
        unfold arraySplit
        exact splitBySizes_lengths _ _ (by rw [hsum, hxs])
      have hmem : part.length ∈ arraySplitSizes (List.range m).length p := by
        rw [← hlen]
        exact List.mem_map_of_mem List.length hpart
      have := arraySplitSizes_mem (List.range m).length p part.length hmem
      rwa [hxs] at this

/-- Witness for `c7_shard_partition`: 5 indices into 2 shards. -/
theorem c7_shard_partition_witness :
    (split_data 2 (List.range 5)).length = 2 ∧
    (split_data 2 (List.range 5)).flatten = List.range 5 :=
  ⟨(c7_shard_partition 5 2 (by norm_num)).1, (c7_shard_partition 5 2 (by norm_num)).2.1⟩

/-! ### Configuration-selector resolution in `train_simulated`
(`MASDL-HP/mainMASCNN.py` lines 74-173) -/

/-- The selector strings of the configuration bundle consumed by
`train_simulated`. -/
structure HPArgs : Type where
  activation : String
  loss : String
  optimizer : String
deriving DecidableEq

/-- The activation tags handled by the `if/elif` chain at lines 75-86 (which
has no `else` branch). -/
def knownActivation (s : String) : Bool :=
  s = "RELU" || s = "LEAKY_RELU" || s = "ELU" || s = "SELU" || s = "GELU" || s = "MISH"

/-- The loss tags handled at lines 92-100 (no `else` branch). -/
def knownLoss (s : String) : Bool :=
  s = "CE" || s = "LSCE" || s = "FC" || s = "WCE"

/-- The optimizer tags handled at lines 103-110 (no `else` branch). -/
def knownOptimizer (s : String) : Bool :=
  s = "ADAM" || s = "ADAMW" || s = "SGDM" || s = "RMSP"

/-- How `train_simulated` can fail on a bad selector.  Python raises
`UnboundLocalError` at the first use of the never-assigned local variable;
`configurationError` is what the spec prescribes and is never produced (no
`ConfigurationError` class exists anywhere in the repository). -/
inductive TrainFailure : Type
  | unboundLocal (name : String)
  | configurationError
deriving DecidableEq

/-- How much training work has happened when a failure surfaces. -/
structure TrainProgress : Type where
  forwardPasses : ℕ
  optimizerSteps : ℕ
deriving DecidableEq

/-- The batch loop of one epoch (lines 127-136): per batch,
`optimizer.zero_grad()` (line 129, the first use of `optimizer`), the forward
pass (line 130), `criterion(...)` (line 131, the first use of `criterion`),
then backward and `optimizer.step()` (lines 132-133). -/
def runBatches (args : HPArgs) : ℕ → TrainProgress → Except (TrainFailure × TrainProgress) TrainProgress
  | 0, pr => .ok pr
  | b + 1, pr =>
    if knownOptimizer args.optimizer then
      let pr2 : TrainProgress := { pr with forwardPasses := pr.forwardPasses + 1 }
      if knownLoss args.loss then
        runBatches args b { pr2 with optimizerSteps := pr2.optimizerSteps + 1 }
      else .error (.unboundLocal "criterion", pr2)
    else .error (.unboundLocal "optimizer", pr)

/-- The epoch loop (lines 121-165): each epoch runs the batch loop, then the
validation pass, which again uses `criterion` at line 148. -/
def runEpochs (args : HPArgs) (batches : ℕ) : ℕ → TrainProgress → Except (TrainFailure × TrainProgress) TrainProgress
  | 0, pr => .ok pr
  | e + 1, pr =>
    match runBatches args batches pr with
    | .error f => .error f
    | .ok pr2 =>
      if knownLoss args.loss then runEpochs args batches e pr2
      else .error (.unboundLocal "criterion", pr2)

/-- `train_simulated`, restricted to selector resolution and the training
work done before any failure: building the model at line 89 is the first use
of `activation_fn`, then the epoch loop runs. -/
def train_simulated (args : HPArgs) (epochs batches : ℕ) :
    Except (TrainFailure × TrainProgress) TrainProgress :=
  if knownActivation args.activation then
    runEpochs args batches epochs { forwardPasses := 0, optimizerSteps := 0 }
  else .error (.unboundLocal "activation_fn", { forwardPasses := 0, optimizerSteps := 0 })

/-- C5 counterexample: with an unknown loss tag the worker does NOT fail with
`ConfigurationError` before training starts — it fails with an
`UnboundLocalError` on `criterion`, and only after the first batch's forward
pass has already run. -/
theorem c5_unknown_selector_not_config_error :
    train_simulated { activation := "RELU", loss := "BAD", optimizer := "ADAM" } 1 1
      = .error (.unboundLocal "criterion", { forwardPasses := 1, optimizerSteps := 0 }) ∧
    TrainFailure.unboundLocal "criterion" ≠ TrainFailure.configurationError ∧
    (1 : ℕ) ≠ 0 := by
  refine ⟨?_, ?_, ?_⟩
  · rfl
  · intro h; exact TrainFailure.noConfusion h
  · omega

/-- C5 amended: any unknown activation, loss, or optimizer selector makes
`train_simulated` fail — as an unhandled `UnboundLocalError`, not a
`ConfigurationError` — before any optimizer step is taken (an unknown
activation fails before the training loop with no forward pass either). -/
theorem c5_unknown_selector_fails (args : HPArgs) (epochs batches : ℕ)
    (he : 1 ≤ epochs) (hb : 1 ≤ batches)
    (hbad : knownActivation args.activation = false ∨ knownLoss args.loss = false ∨
      knownOptimizer args.optimizer = false) :
    ∃ (name : String) (pr : TrainProgress),
      train_simulated args epochs batches = .error (.unboundLocal name, pr) ∧
      pr.optimizerSteps = 0 := by
  obtain ⟨e, rfl⟩ : ∃ e, epochs = e + 1 := ⟨epochs - 1, by omega⟩
  obtain ⟨b, rfl⟩ : ∃ b, batches = b + 1 := ⟨batches - 1, by omega⟩
  by_cases hA : knownActivation args.activation
  · by_cases hO : knownOptimizer args.optimizer
    · by_cases hL : knownLoss args.loss
      · rcases hbad with h | h | h <;> simp [hA, hO, hL] at h
      · refine ⟨"criterion", { forwardPasses := 1, optimizerSteps := 0 }, ?_, rfl⟩
        simp [train_simulated, runEpochs, runBatches, hA, hO, hL]
    · refine ⟨"optimizer", { forwardPasses := 0, optimizerSteps := 0 }, ?_, rfl⟩
      simp [train_simulated, runEpochs, runBatches, hA, hO]
  · refine ⟨"activation_fn", { forwardPasses := 0, optimizerSteps := 0 }, ?_, rfl⟩
    simp [train_simulated, hA]

/-- Witness for `c5_unknown_selector_fails`: an unknown activation tag. -/
theorem c5_unknown_selector_fails_witness :
    ∃ (name : String) (pr : TrainProgress),
      train_simulated { activation := "SIGMOID", loss := "CE", optimizer := "ADAM" } 1 1
        = .error (.unboundLocal name, pr) ∧
      pr.optimizerSteps = 0 :=
  c5_unknown_selector_fails { activation := "SIGMOID", loss := "CE", optimizer := "ADAM" }
    1 1 (by norm_num) (by norm_num) (Or.inl (by decide))

/-! ### Metrics aggregation -/

/-- Per-agent metrics read by `ParallelizationModel.step`
(`MASModelCNN.py` lines 63-66). -/
structure AgentMetrics : Type where
  fold_loss : ℚ
  processing_time : ℚ
  correct_classifications : ℕ
  total_examples_processed : ℕ
deriving DecidableEq

/-- The summary `ParallelizationModel.step` computes (lines 68-74):
mean loss, cumulative time, mean time per node, and the pooled accuracy
`total_correct / total_processed * 100`. -/
structure StepReport : Type where
  average_loss : ℚ
  cumulative_time : ℚ
  average_time_per_node : ℚ
  final_accuracy : ℚ
deriving DecidableEq

/-- `ParallelizationModel.step`, aggregation part (lines 62-79). -/
def stepAggregate (agents : List AgentMetrics) : StepReport :=
  let losses := agents.map (fun a => a.fold_loss)
  let processing_times := agents.map (fun a => a.processing_time)
  let correct := agents.map (fun a => a.correct_classifications)
  let processed := agents.map (fun a => a.total_examples_processed)
  { average_loss := losses.sum / (losses.length : ℚ)
    cumulative_time := processing_times.sum
    average_time_per_node := processing_times.sum / (processing_times.length : ℚ)
    final_accuracy := ((correct.sum : ℚ) / (processed.sum : ℚ)) * 100 }

/-- `main_p8020_EXT.py` line 129: the mean of the per-fold validation
accuracies, `sum(accuracies)/len(accuracies)*100`. -/
def meanValidationAccuracy (accuracies : List ℚ) : ℚ :=
  accuracies.sum / (accuracies.length : ℚ) * 100

/-- C6: on a non-empty collection of per-worker results the aggregator
reports the cumulative time as the sum of per-worker times, the average time
per node as that sum divided by the worker count, the pooled accuracy as
(sum of corrects)/(sum of totals), and the mean validation accuracy as the
arithmetic mean of the per-worker accuracies; pooled accuracy and
mean-of-accuracies are distinct figures (they differ on workers
(8 of 10) and (18 of 20)). -/
theorem c6_metrics_aggregation (agents : List AgentMetrics) (accs : List ℚ)
    (_h : agents ≠ []) :
    (stepAggregate agents).cumulative_time
      = (agents.map (fun a => a.processing_time)).sum ∧
    (stepAggregate agents).average_time_per_node
      = (agents.map (fun a => a.processing_time)).sum / (agents.length : ℚ) ∧
    (stepAggregate agents).final_accuracy
      = (((agents.map (fun a => a.correct_classifications)).sum : ℚ)
          / ((agents.map (fun a => a.total_examples_processed)).sum : ℚ)) * 100 ∧
    (stepAggregate agents).average_loss
      = (agents.map (fun a => a.fold_loss)).sum / (agents.length : ℚ) ∧
    meanValidationAccuracy accs = accs.sum / (accs.length : ℚ) * 100 ∧
    (stepAggregate [⟨0, 0, 8, 10⟩, ⟨0, 0, 18, 20⟩]).final_accuracy
      ≠ meanValidationAccuracy [8 / 10, 18 / 20] := by
  refine ⟨rfl, by simp [stepAggregate], by simp [stepAggregate],
    by simp [stepAggregate], rfl, ?_⟩
  norm_num [stepAggregate, meanValidationAccuracy]

/-- Witness for `c6_metrics_aggregation`: two workers, times 2 and 4. -/
theorem c6_metrics_aggregation_witness :
    (stepAggregate [⟨1, 2, 8, 10⟩, ⟨3, 4, 18, 20⟩]).cumulative_time
      = ([(2 : ℚ), 4]).sum :=
  (c6_metrics_aggregation [⟨1, 2, 8, 10⟩, ⟨3, 4, 18, 20⟩] [] (by simp)).1

/-- C9: calling `synchronize_weights` with no seed state dictionary is a
no-op — it returns immediately and every agent's parameters are untouched. -/
theorem c9_sync_none_noop (agents : List (Option StateDict)) :
    synchronize_weights none agents = agents := rfl

/-- C10: with one configured processor the single agent receives the entire
training set unsplit, and the step leaves its parameters exactly as its own
local training produced them: the per-round synchronization at line 59-60 is
skipped (and would be a no-op anyway, its seed being `none`), and the
reporting-time synchronization averages the lone agent's weights over the
one-agent population, which changes nothing. -/
theorem c10_single_processor (xs : List ℕ) (theta : StateDict) :
    split_data 1 xs = [xs] ∧
    step_weights 1 [some theta] = [some theta] := by
  constructor
  · rfl
  · show synchronize_weights (some theta) [some theta] = [some theta]
    have hg : globalWeight [some theta] = theta := by
      funext k
      simp [globalWeight]
    simp [synchronize_weights, hg]

end ParTries
